import Mathlib

/-!
Verification development for the etcd-client mapping engine.

The Go source is shallowly embedded:
* Go strings are Lean `String`; the `strings` package helpers used by the
  source (`HasPrefix`, `TrimPrefix`, `Split` on a single-character
  separator, `Replace` with count -1) are reimplemented below on the
  character list of the string.
* the variable table (`map[string]string`) is an association list; a Go
  `nil` map is modelled by an `Option`-like wrapper, since assigning to a
  nil map is a runtime panic in Go while reading from one is not.
* the typed-value pointers (`*EtcdString` and friends) are modelled by an
  inductive with one constructor per pointer class: the shared fetch
  sentinel, the shared delete sentinel, the null pointer, and a freshly
  allocated value.  Pointer-identity comparison in the source becomes
  constructor equality.
* `GenerateUniqueID` draws a fresh random UUID on each call; the embedding
  threads an abstract supply `uid : Nat -> String` together with a counter
  that advances once per generated identifier.
-/

namespace EtcdClient

/-! ## Go string helpers -/

/-- Model of `strings.HasPrefix`. -/
def goHasPfx (s pfx : String) : Bool :=
  pfx.data.isPrefixOf s.data

/-- Model of `strings.TrimPrefix`: drops the prefix when present, returns
the string unchanged otherwise. -/
def goTrimPfx (s pfx : String) : String :=
  if goHasPfx s pfx then ⟨s.data.drop pfx.data.length⟩ else s

/-- Model of `strings.Split(s, "/")` on the character list: split at every
separator character, keeping empty segments, as Go does. -/
def goSplitList (sep : Char) : List Char → List (List Char)
  | [] => [[]]
  | c :: rest =>
    match goSplitList sep rest with
    | [] => [[]]
    | s :: ss => if c = sep then [] :: s :: ss else (c :: s) :: ss

/-- Model of `strings.Split(path, "/")`. -/
def goSplit (s : String) (sep : Char) : List String :=
  (goSplitList sep s.data).map (fun cs => (⟨cs⟩ : String))

/-- Worker for `strings.Replace(s, old, new, -1)`.  The fuel argument is
the length of the subject string; every step consumes at least one subject
character when `old` is nonempty (the source only ever replaces a path
segment starting with the variable marker, which is nonempty), so the fuel
never runs out on real calls. -/
def replaceAux : Nat → List Char → List Char → List Char → List Char
  | 0, s, _, _ => s
  | _ + 1, [], _, _ => []
  | fuel + 1, c :: rest, old, new =>
    if old.isPrefixOf (c :: rest) then
      new ++ replaceAux fuel ((c :: rest).drop old.length) old new
    else
      c :: replaceAux fuel rest old new

/-- Model of `strings.Replace(s, old, new, -1)`: replace every
non-overlapping occurrence of `old`, scanning left to right and never
rescanning the inserted replacement. -/
def goReplace (s old new : String) : String :=
  ⟨replaceAux s.data.length s.data old.data new.data⟩

/-! ## Variable table (the Go `map[string]string`) -/

/-- The caller-supplied variable table, as an association list with the
lookup discipline of a Go map (first, and only, binding per key). -/
def Table : Type := List (String × String)

/-- Map lookup, `val, ok := pathvars[k]`. -/
def tblGet : Table → String → Option String
  | [], _ => none
  | (k1, v1) :: rest, k => if k1 = k then some v1 else tblGet rest k

/-- Map assignment `m[k] = v` on a non-nil map: overwrite the existing
binding or add a new one. -/
def tblSet : Table → String → String → Table
  | [], k, v => [(k, v)]
  | (k1, v1) :: rest, k, v =>
    if k1 = k then (k, v) :: rest else (k1, v1) :: tblSet rest k v

/-- A Go map reference: either the nil map or an actual table.  Go
semantics that the embedding relies on: writing to a nil map panics at
run time. -/
inductive GoMap where
  | nilMap
  | mk (entries : Table)

/-! ## Path resolution (`pathReplace`, client.go lines 343-360) -/

/-- The two failure modes of `pathReplace`: the accumulator variable used
inside a collection ("cannot use @ pathvar inside slice"), and a
referenced variable missing from the table ("pathvar %s not populated",
carrying the offending segment). -/
inductive PathErr where
  | invalidContext
  | missingVariable (segment : String)
deriving DecidableEq

/-- The loop body of `pathReplace`: iterate over the segments of the
original path (computed once), mutating the working path by textual
substitution.  Mirrors client.go lines 344-357. -/
def pathLoop (tbl : Table) (inslice : Bool) : List String → String → Except PathErr String
  | [], path => .ok path
  | p :: rest, path =>
    if goHasPfx p ":" then
      let vname := goTrimPfx p ":"
      if vname == "@" && inslice then
        .error .invalidContext
      else
        match tblGet tbl vname with
        | none => .error (.missingVariable p)
        | some v => pathLoop tbl inslice rest (goReplace path p v)
    else
      pathLoop tbl inslice rest path

/-- Model of `pathReplace(path, pathvars, inslice)`: split the template on
the separator and substitute every variable segment. -/
def pathReplace (path : String) (tbl : Table) (inslice : Bool) : Except PathErr String :=
  pathLoop tbl inslice (goSplit path '/') path

/-! ## Typed-value pointers (part_000)

A field of type `*EtcdString` (and likewise for the other scalar types) is
one of: the null pointer, the shared package-level fetch sentinel
(`&getStringOp`), the shared delete sentinel (`&deleteStringOp`), or a
fresh allocation carrying a value.  The source classifies a pointer purely
by identity against the two sentinels and nil, so the four constructor
classes below capture exactly the distinctions the code can make.  `toStr`
is the `ToString` method: the sentinels are zero values of the underlying
string type, so they serialize to the empty string, as a nil receiver
does. -/
inductive EtcdPtr where
  | null
  | getSent
  | deleteSent
  | val (s : String)
deriving DecidableEq

/-- `IsGet`: pointer identity with the fetch sentinel (part_000 line 108). -/
def EtcdPtr.isGet : EtcdPtr → Bool
  | .getSent => true
  | _ => false

/-- `IsSet`: `e != &deleteStringOp && e != nil` (part_000 line 111). -/
def EtcdPtr.isSet : EtcdPtr → Bool
  | .deleteSent => false
  | .null => false
  | _ => true

/-- `IsDelete`: pointer identity with the delete sentinel (part_000 line 114). -/
def EtcdPtr.isDelete : EtcdPtr → Bool
  | .deleteSent => true
  | _ => false

/-- `ToString` of a string-typed pointer (part_000 line 98): nil yields
the empty string; the sentinels hold the zero value, which is also the
empty string. -/
def EtcdPtr.toStr : EtcdPtr → String
  | .null => ""
  | .getSent => ""
  | .deleteSent => ""
  | .val s => s

/-- The "fetch" constructor `GetString` (part_000 line 233): returns the
shared fetch sentinel. -/
def GetString : EtcdPtr := .getSent

/-- The "delete" constructor `DeleteString` (part_000 line 236): returns
the shared delete sentinel. -/
def DeleteString : EtcdPtr := .deleteSent

/-- The "write" constructor `SetString` (part_000 line 239): returns a
fresh allocation, distinct from both sentinels and from nil. -/
def SetString (s : String) : EtcdPtr := .val s

/-! ## Operations and the write-path walker (client.go lines 258-335) -/

/-- An etcd operation emitted by the walker.  `delAll` is
`clientv3.OpDelete(key, clientv3.WithPrefix())`. -/
inductive Op where
  | put (key value : String)
  | del (key : String)
  | delAll (keyPfx : String)
deriving DecidableEq

/-- The element loop of `createSliceSetOps` (client.go lines 316-332).
The loop variable `etcdKey` is reassigned in place on every Write-intent
element, so the working key carries over to the next iteration.  `uid`
models `GenerateUniqueID`; `ctr` counts identifiers drawn so far. -/
def sliceSetLoop (uid : Nat → String) : List EtcdPtr → String → Nat → List Op × Nat
  | [], _, ctr => ([], ctr)
  | e :: rest, etcdKey, ctr =>
    if e.isSet then
      let k := etcdKey ++ "/" ++ uid ctr
      let r := sliceSetLoop uid rest k (ctr + 1)
      (Op.put k e.toStr :: r.1, r.2)
    else
      sliceSetLoop uid rest etcdKey ctr

/-- Model of `createSliceSetOps` (client.go lines 304-335) for a slice of
scalar pointers: a single Delete-intent element clears the whole prefix;
otherwise each element with `IsSet` true is written.  (A slice of structs
is rejected by the source with an error; that shape is outside this
element type and is not needed by any claim.) -/
def createSliceSetOps (uid : Nat → String) (elems : List EtcdPtr) (etcdKey : String)
    (ctr : Nat) : List Op × Nat :=
  match elems with
  | [e] =>
    if e.isDelete then ([Op.delAll (etcdKey ++ "/")], ctr)
    else sliceSetLoop uid [e] etcdKey ctr
  | es => sliceSetLoop uid es etcdKey ctr

/-! A record shape: each tagged field is a scalar-pointer leaf, a nested
record, or a collection of scalar pointers.  A `none` tag models a struct
field without the path tag, which the walker skips.  The mutual list type
keeps the recursion over the tree structural. -/
mutual
inductive Field where
  | leaf (tag : Option String) (p : EtcdPtr)
  | record (tag : Option String) (fields : FieldList)
  | collection (tag : Option String) (elems : List EtcdPtr)
inductive FieldList where
  | nil
  | cons (f : Field) (fs : FieldList)
end

/-- Convenience: build a `FieldList` from a Lean list. -/
def fieldsOf : List Field → FieldList
  | [] => .nil
  | f :: fs => .cons f (fieldsOf fs)

/-! Model of `createStructSetOps` (client.go lines 258-302), split into
the per-field dispatch and the field-list loop.  The variable table is a
Go map, shared by reference: the assignment made before recursing into a
nested record persists after the recursion returns, so the updated table
is threaded back to the caller.  The slice branch calls
`createSliceSetOps` without touching the table, exactly as the source
does on the write path. -/
mutual
def fieldSetOps (uid : Nat → String) : Field → Table → Bool → Nat →
    Except PathErr (List Op × Table × Nat)
  | .leaf none _, tbl, _, ctr => .ok ([], tbl, ctr)
  | .leaf (some tag) p, tbl, ins, ctr =>
    match pathReplace tag tbl ins with
    | .error e => .error e
    | .ok etcdKey =>
      if p.isDelete then .ok ([Op.del etcdKey], tbl, ctr)
      else if p.isSet then .ok ([Op.put etcdKey p.toStr], tbl, ctr)
      else .ok ([], tbl, ctr)
  | .record none _, tbl, _, ctr => .ok ([], tbl, ctr)
  | .record (some tag) fs, tbl, ins, ctr =>
    match pathReplace tag tbl ins with
    | .error e => .error e
    | .ok etcdKey => fieldsSetOps uid fs (tblSet tbl "@" etcdKey) ins ctr
  | .collection none _, tbl, _, ctr => .ok ([], tbl, ctr)
  | .collection (some tag) elems, tbl, ins, ctr =>
    match pathReplace tag tbl ins with
    | .error e => .error e
    | .ok etcdKey =>
      let r := createSliceSetOps uid elems etcdKey ctr
      .ok (r.1, tbl, r.2)
def fieldsSetOps (uid : Nat → String) : FieldList → Table → Bool → Nat →
    Except PathErr (List Op × Table × Nat)
  | .nil, tbl, _, ctr => .ok ([], tbl, ctr)
  | .cons f fs, tbl, ins, ctr =>
    match fieldSetOps uid f tbl ins ctr with
    | .error e => .error e
    | .ok (ops1, tbl1, c1) =>
      match fieldsSetOps uid fs tbl1 ins c1 with
      | .error e => .error e
      | .ok (ops2, tbl2, c2) => .ok (ops1 ++ ops2, tbl2, c2)
end

/-- Entry point of the write-path walker on a whole record. -/
def createStructSetOps (uid : Nat → String) (fields : FieldList) (tbl : Table)
    (inslice : Bool) (ctr : Nat) : Except PathErr (List Op × Table × Nat) :=
  fieldsSetOps uid fields tbl inslice ctr

/-- The operations of the leaf branch of `createStructSetOps` (client.go
lines 274-284), as a standalone function of the resolved key and the
pointer: Delete intent wins, then `IsSet`, else nothing. -/
def leafSetOp (key : String) (p : EtcdPtr) : List Op :=
  if p.isDelete then [Op.del key]
  else if p.isSet then [Op.put key p.toStr]
  else []

/-! ## Entry of `store.Get` / `store.Set` (client.go lines 66-85, 217-236) -/

/-- The argument passed to `Get`/`Set`, classified the way the two
reflection checks classify it: not a pointer, a pointer to a non-struct,
or a pointer to a struct with the given fields. -/
inductive GoArg where
  | notPtr
  | ptrNonStruct
  | ptrToStruct (fields : FieldList)

/-- How far the entry of `Get`/`Set` gets before building operations. -/
inductive GoCall where
  | errInvalidArg
  | panicked
  | proceeds (fields : FieldList) (pathvar : Table)

/-- The shared shape of both entry preludes: validate the pointer, then
execute the unguarded assignment of the accumulator entry into the
caller's map.  Assigning to a nil Go map panics, so a nil table turns
into `panicked` even for a valid record pointer. -/
def entryPrelude : GoArg → GoMap → GoCall
  | .notPtr, _ => .errInvalidArg
  | .ptrNonStruct, _ => .errInvalidArg
  | .ptrToStruct _, .nilMap => .panicked
  | .ptrToStruct fs, .mk entries => .proceeds fs (tblSet entries "@" "")

/-- Model of the entry of `store.Get` (client.go lines 66-85): pointer
validation, then the assignment of the empty accumulator, then the walk. -/
def storeGetEntry (g : GoArg) (pathvar : GoMap) : GoCall :=
  entryPrelude g pathvar

/-- Model of the entry of `store.Set` (client.go lines 217-236): pointer
validation, then the assignment of the empty accumulator, then the walk. -/
def storeSetEntry (s : GoArg) (pathvar : GoMap) : GoCall :=
  entryPrelude s pathvar

/-! ## Response correlation in `store.Get` (client.go lines 98-110) -/

/-- The failures of the response-application phase: the defensive count
check ("Unexpected number of responses") and a callback failure ("Invalid
data for field type"). -/
inductive GetErr where
  | responseCountMismatch
  | fieldDecode
deriving DecidableEq

/-- The callback loop of `store.Get` (client.go lines 104-110): apply
each callback to the positionally matching response, threading the
caller's record state; a failing callback stops the loop with the state
reached so far. -/
def runCallbacks {σ ρ : Type} : List (ρ → σ → Except Unit σ) → List ρ → σ → σ × Option GetErr
  | cb :: cbs, r :: rs, s =>
    match cb r s with
    | .error _ => (s, some .fieldDecode)
    | .ok s1 => runCallbacks cbs rs s1
  | _, _, s => (s, none)

/-- The response phase of `store.Get` (client.go lines 98-110): the count
check runs before any callback, so on a mismatch the loop is never
entered and the record state comes back untouched. -/
def getRespond {σ ρ : Type} (callbacks : List (ρ → σ → Except Unit σ)) (resps : List ρ)
    (s : σ) : σ × Option GetErr :=
  if resps.length = callbacks.length then runCallbacks callbacks resps s
  else (s, some .responseCountMismatch)

/-! ## Decimal rendering and parsing (`strconv.FormatInt` / `FormatUint` /
`ParseInt` / `ParseUint`, base 10) -/

/-- Little-endian base-10 digits with explicit fuel, so that the function
is structural and evaluates inside the kernel; `n` itself is always
enough fuel. -/
def decDigitsAux : Nat → Nat → List Nat
  | 0, _ => []
  | fuel + 1, n => if n = 0 then [] else n % 10 :: decDigitsAux fuel (n / 10)

/-- Little-endian base-10 digits of a natural number. -/
def decDigits (n : Nat) : List Nat := decDigitsAux n n

/-- The character of a decimal digit. -/
def digitCh (d : Nat) : Char := Char.ofNat (48 + d)

/-- The digit value of a character, if it is a decimal digit. -/
def decDigit (c : Char) : Option Nat :=
  if 48 ≤ c.toNat ∧ c.toNat ≤ 57 then some (c.toNat - 48) else none

/-- Decimal rendering, most significant digit first: the digit loop of
`strconv.FormatUint(n, 10)`. -/
def decRenderChars (n : Nat) : List Char :=
  if n = 0 then ['0'] else (decDigits n).reverse.map digitCh

/-- Decimal rendering as a string. -/
def decRender (n : Nat) : String := ⟨decRenderChars n⟩

/-- The digit-accumulation loop shared by `strconv.ParseUint` and
`ParseInt`: any non-digit character is a syntax error. -/
def decParseLoop : List Char → Nat → Option Nat
  | [], acc => some acc
  | c :: cs, acc =>
    match decDigit c with
    | none => none
    | some d => decParseLoop cs (acc * 10 + d)

/-- The digits part of `strconv.ParseUint`: an empty digit string is a
syntax error. -/
def decParseChars : List Char → Option Nat
  | [] => none
  | c :: cs => decParseLoop (c :: cs) 0

/-! ## The scalar codecs of part_000 -/

/-- `EtcdString.ToString` on a non-nil value (part_000 line 98). -/
def EtcdString.toStr (s : String) : String := s

/-- `EtcdString.FromString` (part_000 line 104): always succeeds. -/
def EtcdString.fromStr (s : String) : Except Unit String := .ok s

/-- `EtcdUuid.ToString` on a non-nil value (part_000 line 77). -/
def EtcdUuid.toStr (u : String) : String := u

/-- `EtcdUuid.FromString` (part_000 line 83): stores the string with no
validation. -/
def EtcdUuid.fromStr (s : String) : Except Unit String := .ok s

/-- `EtcdBool.ToString` (part_000 line 161): `strconv.FormatBool`. -/
def EtcdBool.toStr (b : Bool) : String := if b then "true" else "false"

/-- `EtcdBool.FromString` (part_000 line 164): `strconv.ParseBool`, which
accepts the twelve literal spellings and rejects everything else. -/
def EtcdBool.fromStr (s : String) : Except Unit Bool :=
  if s = "1" ∨ s = "t" ∨ s = "T" ∨ s = "true" ∨ s = "TRUE" ∨ s = "True" then .ok true
  else if s = "0" ∨ s = "f" ∨ s = "F" ∨ s = "false" ∨ s = "FALSE" ∨ s = "False" then .ok false
  else .error ()

/-- `EtcdUint.ToString` on a non-nil value (part_000 line 138):
`strconv.FormatUint(uint64(*e), 10)`; the argument is the underlying
64-bit value, hence below `2 ^ 64`. -/
def EtcdUint.toStr (u : Nat) : String := decRender u

/-- `EtcdUint.FromString` (part_000 line 144): `strconv.ParseUint(value,
10, 64)` — digits only, range-checked against the unsigned 64-bit
maximum. -/
def EtcdUint.fromStr (s : String) : Except Unit Nat :=
  match decParseChars s.data with
  | none => .error ()
  | some n => if n < 2 ^ 64 then .ok n else .error ()

/-- `EtcdInt.ToString` (part_000 line 118): `strconv.FormatInt(int64(*e),
10)` — a minus sign for negative values, then the decimal digits of the
magnitude. -/
def EtcdInt.toStr (i : Int) : String :=
  if i < 0 then ⟨'-' :: decRenderChars (-i).toNat⟩ else decRender i.toNat

/-- The body of `strconv.ParseInt(value, 10, 64)` on the character list:
an optional sign, a nonempty digit string, and the signed 64-bit range
check. -/
def intParseChars : List Char → Except Unit Int
  | [] => .error ()
  | c :: cs =>
    let ds := if c = '-' ∨ c = '+' then cs else c :: cs
    match decParseChars ds with
    | none => .error ()
    | some n =>
      if c = '-' then
        if n ≤ 2 ^ 63 then .ok (-(n : Int)) else .error ()
      else
        if n ≤ 2 ^ 63 - 1 then .ok ((n : Int)) else .error ()

/-- `EtcdInt.FromString` (part_000 line 121): `strconv.ParseInt(value,
10, 64)`. -/
def EtcdInt.fromStr (s : String) : Except Unit Int := intParseChars s.data

/-! ## The time codec (part_000 lines 53-66)

`EtcdTime.ToString` is `time.Time.Format(time.RFC3339)` and
`EtcdTime.FromString` is `time.Parse(time.RFC3339, value)`, both from the
Go standard library.  The embedding models a time instant by its broken-
down wall-clock fields plus the zone offset, which is what the RFC 3339
text carries.  Behaviors of the library reproduced here: the layout has
no fractional-second field, so formatting drops `nanos`; formatting
renders the zone as the letter Z exactly when the offset is zero and
otherwise as sign, two-digit hours, a colon and two-digit minutes,
discarding any sub-minute part of the offset; parsing accepts an optional
fractional second of at most nine digits after the seconds even though
the layout has none; parsing demands exactly four year digits (so a
five-digit or sign-prefixed year fails) and range-checks the clock
fields.  Calendar normalization of out-of-range days is not modelled; the
validity predicate used by the round-trip theorem keeps inputs away from
it. -/

structure GoTime where
  year : Nat
  month : Nat
  day : Nat
  hour : Nat
  minute : Nat
  second : Nat
  nanos : Nat
  offset : Int
deriving DecidableEq

/-- Zero-pad a numeral on the left to the given width; Go's fixed-width
format pads but never truncates. -/
def padZero (w : Nat) (cs : List Char) : List Char :=
  List.replicate (w - cs.length) '0' ++ cs

/-- Two-digit zero-padded field. -/
def render2 (n : Nat) : List Char := padZero 2 (decRenderChars n)

/-- Four-digit zero-padded year. -/
def render4 (n : Nat) : List Char := padZero 4 (decRenderChars n)

/-- The zone suffix of the RFC 3339 layout: the letter Z for offset zero,
otherwise sign and zero-padded hours and minutes of the whole-minute part
of the offset. -/
def renderOffset (off : Int) : List Char :=
  if off = 0 then ['Z']
  else
    let mins := off.natAbs / 60
    (if off < 0 then '-' else '+') :: (render2 (mins / 60) ++ ':' :: render2 (mins % 60))

/-- `time.Time.Format(time.RFC3339)` on the broken-down representation. -/
def GoTime.toStr (t : GoTime) : String :=
  ⟨render4 t.year ++
   '-' :: (render2 t.month ++
   '-' :: (render2 t.day ++
   'T' :: (render2 t.hour ++
   ':' :: (render2 t.minute ++
   ':' :: (render2 t.second ++
   renderOffset t.offset)))))⟩

/-- Read exactly two decimal digits (the library's fixed `getnum`). -/
def pDigit2 : List Char → Option (Nat × List Char)
  | a :: b :: rest =>
    match decDigit a, decDigit b with
    | some x, some y => some (x * 10 + y, rest)
    | _, _ => none
  | _ => none

/-- Read exactly four decimal digits (the four-digit year field). -/
def pDigit4 : List Char → Option (Nat × List Char)
  | a :: b :: c :: d :: rest =>
    match decDigit a, decDigit b, decDigit c, decDigit d with
    | some x, some y, some z, some w => some (x * 1000 + y * 100 + z * 10 + w, rest)
    | _, _, _, _ => none
  | _ => none

/-- Expect one literal layout character. -/
def pChar (c : Char) : List Char → Option (List Char)
  | x :: rest => if x = c then some rest else none
  | [] => none

/-- Leading run of decimal digits. -/
def takeDigits : List Char → List Char × List Char
  | [] => ([], [])
  | c :: rest =>
    if (decDigit c).isSome then
      let r := takeDigits rest
      (c :: r.1, r.2)
    else ([], c :: rest)

/-- The optional fractional second the library accepts after the seconds
field even though the RFC 3339 layout has none: a point followed by at
least one digit; at most nine digits are in range, and the value is
scaled to nanoseconds.  Anything that does not start with a point and a
digit is left for the zone field. -/
def pFrac (cs : List Char) : Option (Nat × List Char) :=
  match cs with
  | c1 :: c2 :: rest =>
    if c1 = '.' ∧ (decDigit c2).isSome then
      let r := takeDigits (c2 :: rest)
      if r.1.length ≤ 9 then
        match decParseChars r.1 with
        | some n => some (n * 10 ^ (9 - r.1.length), r.2)
        | none => none
      else none
    else some (0, cs)
  | _ => some (0, cs)

/-- The zone field of the layout: the letter Z means offset zero;
otherwise a sign, two-digit hours, a colon, and two-digit minutes. -/
def pOffset : List Char → Option (Int × List Char)
  | [] => none
  | c :: rest =>
    if c = 'Z' then some (0, rest)
    else if c = '+' ∨ c = '-' then
      match pDigit2 rest with
      | none => none
      | some (hh, r1) =>
        match pChar ':' r1 with
        | none => none
        | some r2 =>
          match pDigit2 r2 with
          | none => none
          | some (mm, r3) =>
            let off : Int := ((hh * 3600 + mm * 60 : Nat) : Int)
            some (if c = '-' then -off else off, r3)
    else none

/-- `time.Parse(time.RFC3339, _)` on the character list: the date, the
literal T, the clock, an optional fraction, the zone, and nothing after;
the clock and date fields are range-checked as the library does. -/
def parseRFC3339 (cs : List Char) : Option GoTime :=
  match pDigit4 cs with
  | none => none
  | some (y, r0) =>
    match pChar '-' r0 with
    | none => none
    | some r1 =>
      match pDigit2 r1 with
      | none => none
      | some (mo, r2) =>
        match pChar '-' r2 with
        | none => none
        | some r3 =>
          match pDigit2 r3 with
          | none => none
          | some (d, r4) =>
            match pChar 'T' r4 with
            | none => none
            | some r5 =>
              match pDigit2 r5 with
              | none => none
              | some (h, r6) =>
                match pChar ':' r6 with
                | none => none
                | some r7 =>
                  match pDigit2 r7 with
                  | none => none
                  | some (mi, r8) =>
                    match pChar ':' r8 with
                    | none => none
                    | some r9 =>
                      match pDigit2 r9 with
                      | none => none
                      | some (s, r10) =>
                        match pFrac r10 with
                        | none => none
                        | some (ns, r11) =>
                          match pOffset r11 with
                          | none => none
                          | some (off, r12) =>
                            if r12 = [] then
                              if 1 ≤ mo ∧ mo ≤ 12 ∧ 1 ≤ d ∧ d ≤ 31 ∧
                                  h ≤ 23 ∧ mi ≤ 59 ∧ s ≤ 59 then
                                some ⟨y, mo, d, h, mi, s, ns, off⟩
                              else none
                            else none

/-- `EtcdTime.FromString` (part_000 line 59). -/
def GoTime.fromStr (s : String) : Except Unit GoTime :=
  match parseRFC3339 s.data with
  | none => .error ()
  | some t => .ok t

/-- The in-domain times of the round-trip property: representable by the
RFC 3339 text the format produces — a four-digit year, real clock
fields, no sub-second part, and a whole-minute zone offset smaller than a
day. -/
def GoTime.valid (t : GoTime) : Prop :=
  t.year ≤ 9999 ∧ 1 ≤ t.month ∧ t.month ≤ 12 ∧ 1 ≤ t.day ∧ t.day ≤ 31 ∧
  t.hour ≤ 23 ∧ t.minute ≤ 59 ∧ t.second ≤ 59 ∧ t.nanos = 0 ∧
  t.offset % 60 = 0 ∧ -86400 < t.offset ∧ t.offset < 86400

instance (t : GoTime) : Decidable t.valid := by
  unfold GoTime.valid
  infer_instance

/-! ## The byte-blob codec (part_000 lines 181-195)

`EtcdBytes.ToString` encodes with `base64.RawURLEncoding` (the URL
alphabet, no padding) while `EtcdBytes.FromString` decodes with
`base64.RawStdEncoding` (the standard alphabet, no padding).  Bytes are
naturals below 256. -/

/-- The standard base64 alphabet. -/
def b64StdAlpha : List Char :=
  "ABCDEFGHIJKLMNOPQRSTUVWXYZabcdefghijklmnopqrstuvwxyz0123456789+/".data

/-- The URL-safe base64 alphabet: positions 62 and 63 differ from the
standard alphabet. -/
def b64UrlAlpha : List Char :=
  "ABCDEFGHIJKLMNOPQRSTUVWXYZabcdefghijklmnopqrstuvwxyz0123456789-_".data

/-- The alphabet character of a six-bit group. -/
def b64Ch (alpha : List Char) (n : Nat) : Char := alpha.getD n ' '

/-- Unpadded base64 encoding: three bytes to four characters, a two-byte
tail to three, a one-byte tail to two. -/
def b64EncList (alpha : List Char) : List Nat → List Char
  | [] => []
  | [a] => [b64Ch alpha (a / 4), b64Ch alpha (a % 4 * 16)]
  | [a, b] =>
    [b64Ch alpha (a / 4), b64Ch alpha (a % 4 * 16 + b / 16), b64Ch alpha (b % 16 * 4)]
  | a :: b :: c :: rest =>
    b64Ch alpha (a / 4) :: b64Ch alpha (a % 4 * 16 + b / 16) ::
      b64Ch alpha (b % 16 * 4 + c / 64) :: b64Ch alpha (c % 64) :: b64EncList alpha rest

/-- The six-bit value of an alphabet character, if the character belongs
to the alphabet. -/
def b64Idx (alpha : List Char) (c : Char) : Option Nat :=
  alpha.findIdx? (fun x => x == c)

/-- Unpadded base64 decoding: four-character quanta from the front, then
a three- or two-character tail; one leftover character, or any character
outside the alphabet, is an error. -/
def b64DecList (alpha : List Char) : List Char → Option (List Nat)
  | [] => some []
  | [_] => none
  | [c1, c2] =>
    match b64Idx alpha c1, b64Idx alpha c2 with
    | some i1, some i2 => some [i1 * 4 + i2 / 16]
    | _, _ => none
  | [c1, c2, c3] =>
    match b64Idx alpha c1, b64Idx alpha c2, b64Idx alpha c3 with
    | some i1, some i2, some i3 => some [i1 * 4 + i2 / 16, i2 % 16 * 16 + i3 / 4]
    | _, _, _ => none
  | c1 :: c2 :: c3 :: c4 :: rest =>
    match b64Idx alpha c1, b64Idx alpha c2, b64Idx alpha c3, b64Idx alpha c4,
        b64DecList alpha rest with
    | some i1, some i2, some i3, some i4, some bs =>
      some ((i1 * 4 + i2 / 16) :: (i2 % 16 * 16 + i3 / 4) :: (i3 % 4 * 64 + i4) :: bs)
    | _, _, _, _, _ => none

/-- `EtcdBytes.ToString` on a non-nil value (part_000 line 181):
`base64.RawURLEncoding.EncodeToString`. -/
def EtcdBytes.toStr (bs : List Nat) : String := ⟨b64EncList b64UrlAlpha bs⟩

/-- `EtcdBytes.FromString` (part_000 line 188):
`base64.RawStdEncoding.DecodeString`. -/
def EtcdBytes.fromStr (s : String) : Except Unit (List Nat) :=
  match b64DecList b64StdAlpha s.data with
  | none => .error ()
  | some bs => .ok bs

/-- A concrete, injective identifier supply used by the evaluation
theorems in place of the random `GenerateUniqueID`. -/
def demoUid (n : Nat) : String := ⟨'i' :: 'd' :: decRenderChars n⟩


/-! ## Round-trip lemmas for the decimal, integer, boolean and time
codecs.  These feed the serialization claims below. -/

theorem decDigitsAux_eq (fuel n : Nat) (h : n ≤ fuel) : decDigitsAux fuel n = Nat.digits 10 n := by
  induction fuel generalizing n with
  | zero =>
    interval_cases n
    simp [decDigitsAux]
  | succ f ih =>
    by_cases h0 : n = 0
    · simp [decDigitsAux, h0]
    · rw [decDigitsAux, if_neg h0, Nat.digits_def' (by norm_num) (Nat.pos_of_ne_zero h0),
        ih (n / 10) (by omega)]

theorem decDigits_eq (n : Nat) : decDigits n = Nat.digits 10 n := decDigitsAux_eq n n le_rfl

theorem decDigit_digitCh (d : Nat) (h : d < 10) : decDigit (digitCh d) = some d := by
  interval_cases d <;> decide

theorem digitCh_toNat (d : Nat) (h : d < 10) : (digitCh d).toNat = 48 + d := by
  interval_cases d <;> decide

theorem decParseLoop_map (ds : List Nat) (h : ∀ d ∈ ds, d < 10) (acc : Nat) :
    decParseLoop (ds.map digitCh) acc = some (ds.foldl (fun a d => a * 10 + d) acc) := by
  induction ds generalizing acc with
  | nil => rfl
  | cons d t ih =>
    rw [List.map_cons, decParseLoop, decDigit_digitCh d (h d (by simp)), List.foldl_cons]
    exact ih (fun x hx => h x (by simp [hx])) _

theorem foldl_digits_reverse (L : List Nat) (acc : Nat) :
    (L.reverse).foldl (fun a d => a * 10 + d) acc = acc * 10 ^ L.length + Nat.ofDigits 10 L := by
  induction L generalizing acc with
  | nil => simp [Nat.ofDigits_nil]
  | cons d t ih =>
    rw [List.reverse_cons, List.foldl_append, ih, List.foldl_cons, List.foldl_nil,
      Nat.ofDigits_cons, List.length_cons]
    push_cast [pow_succ]
    ring

theorem decParseChars_render (n : Nat) : decParseChars (decRenderChars n) = some n := by
  by_cases h0 : n = 0
  · subst h0; rfl
  · have hd : decRenderChars n = ((Nat.digits 10 n).reverse).map digitCh := by
      rw [decRenderChars, if_neg h0, decDigits_eq]
    have hlt : ∀ d ∈ (Nat.digits 10 n).reverse, d < 10 := fun d hdm =>
      Nat.digits_lt_base (by norm_num) (List.mem_reverse.mp hdm)
    have hloop := decParseLoop_map ((Nat.digits 10 n).reverse) hlt 0
    rw [foldl_digits_reverse, zero_mul, zero_add, Nat.ofDigits_digits] at hloop
    have hne : ((Nat.digits 10 n).reverse).map digitCh ≠ [] := by
      simp [Nat.digits_ne_nil_iff_ne_zero.mpr h0]
    rw [hd]
    match hshape : ((Nat.digits 10 n).reverse).map digitCh with
    | [] => exact absurd hshape hne
    | c :: cs =>
      rw [decParseChars, ← hshape, hloop]

theorem decRenderChars_mem_digit (n : Nat) (c : Char) (hc : c ∈ decRenderChars n) :
    48 ≤ c.toNat ∧ c.toNat ≤ 57 := by
  by_cases h0 : n = 0
  · subst h0
    have hz : decRenderChars 0 = ['0'] := rfl
    rw [hz, List.mem_singleton] at hc
    subst hc; decide
  · rw [decRenderChars, if_neg h0, decDigits_eq] at hc
    obtain ⟨d, hdm, hdc⟩ := List.mem_map.mp hc
    have hdl : d < 10 := Nat.digits_lt_base (by norm_num) (List.mem_reverse.mp hdm)
    rw [← hdc, digitCh_toNat d hdl]
    omega

theorem decRenderChars_ne_nil (n : Nat) : decRenderChars n ≠ [] := by
  by_cases h0 : n = 0
  · subst h0; decide
  · rw [decRenderChars, if_neg h0, decDigits_eq]
    simp [Nat.digits_ne_nil_iff_ne_zero.mpr h0]

theorem uint_roundtrip (u : Nat) (h : u < 2 ^ 64) :
    EtcdUint.fromStr (EtcdUint.toStr u) = .ok u := by
  have hdata : (EtcdUint.toStr u).data = decRenderChars u := rfl
  rw [EtcdUint.fromStr, hdata, decParseChars_render]
  show (if u < 2 ^ 64 then Except.ok u else Except.error ()) = Except.ok u
  rw [if_pos h]

theorem intParseChars_neg (X : List Char) (n : Nat) (hX : decParseChars X = some n) :
    intParseChars ('-' :: X) = if n ≤ 2 ^ 63 then .ok (-(n : Int)) else .error () := by
  rw [intParseChars]
  simp [hX]

theorem intParseChars_nosign (c : Char) (cs : List Char) (n : Nat)
    (hc : ¬(c = '-' ∨ c = '+')) (hX : decParseChars (c :: cs) = some n) :
    intParseChars (c :: cs) = if n ≤ 2 ^ 63 - 1 then .ok ((n : Int)) else .error () := by
  rw [intParseChars]
  simp only [if_neg hc, hX, if_neg (show ¬c = '-' from fun h1 => hc (Or.inl h1))]

theorem int_roundtrip (i : Int) (h1 : -(2 ^ 63) ≤ i) (h2 : i < 2 ^ 63) :
    EtcdInt.fromStr (EtcdInt.toStr i) = .ok i := by
  by_cases hneg : i < 0
  · have htos : EtcdInt.toStr i = ⟨'-' :: decRenderChars (-i).toNat⟩ := by
      rw [EtcdInt.toStr, if_pos hneg]
    have hstep : EtcdInt.fromStr ⟨'-' :: decRenderChars (-i).toNat⟩ =
        intParseChars ('-' :: decRenderChars (-i).toNat) := rfl
    rw [htos, hstep, intParseChars_neg _ _ (decParseChars_render (-i).toNat),
      if_pos (show (-i).toNat ≤ 2 ^ 63 by omega)]
    have hm : (((-i).toNat : Int)) = -i := Int.toNat_of_nonneg (by omega)
    rw [hm, neg_neg]
  · push_neg at hneg
    have htos : EtcdInt.toStr i = ⟨decRenderChars i.toNat⟩ := by
      rw [EtcdInt.toStr, if_neg (by omega)]
      rfl
    rw [htos]
    match hshape : decRenderChars i.toNat with
    | [] => exact absurd hshape (decRenderChars_ne_nil _)
    | c :: cs =>
      have hcd : 48 ≤ c.toNat ∧ c.toNat ≤ 57 :=
        decRenderChars_mem_digit i.toNat c (by rw [hshape]; exact List.mem_cons_self c cs)
      have hcne : ¬(c = '-' ∨ c = '+') := by
        rintro (rfl | rfl) <;> revert hcd <;> decide
      have hstep : EtcdInt.fromStr ⟨c :: cs⟩ = intParseChars (c :: cs) := rfl
      rw [hstep, intParseChars_nosign c cs i.toNat hcne (by rw [← hshape, decParseChars_render]),
        if_pos (show i.toNat ≤ 2 ^ 63 - 1 by omega), Int.toNat_of_nonneg hneg]

theorem bool_roundtrip (b : Bool) : EtcdBool.fromStr (EtcdBool.toStr b) = .ok b := by
  cases b <;> rfl


theorem digits10 (n : Nat) (h : 0 < n) :
    Nat.digits 10 n = n % 10 :: Nat.digits 10 (n / 10) := Nat.digits_def' (by norm_num) h

theorem decRenderChars_lt10 (n : Nat) (h : n < 10) : decRenderChars n = [digitCh n] := by
  by_cases h0 : n = 0
  · subst h0; decide
  · rw [decRenderChars, if_neg h0, decDigits_eq, digits10 n (by omega), Nat.mod_eq_of_lt h,
      Nat.div_eq_of_lt h, Nat.digits_zero]
    rfl

theorem render2_eq (n : Nat) (h : n < 100) :
    render2 n = [digitCh (n / 10), digitCh (n % 10)] := by
  by_cases h1 : n < 10
  · rw [render2, decRenderChars_lt10 n h1, Nat.div_eq_of_lt h1, Nat.mod_eq_of_lt h1]
    show ['0', digitCh n] = [digitCh 0, digitCh n]
    rfl
  · have hd : decRenderChars n = [digitCh (n / 10), digitCh (n % 10)] := by
      rw [decRenderChars, if_neg (by omega), decDigits_eq, digits10 n (by omega),
        digits10 (n / 10) (by omega), show n / 10 / 10 = 0 from by omega, Nat.digits_zero,
        Nat.mod_eq_of_lt (show n / 10 < 10 by omega)]
      rfl
    rw [render2, hd]
    rfl

theorem render4_eq (n : Nat) (h : n < 10000) :
    render4 n =
      [digitCh (n / 1000), digitCh (n / 100 % 10), digitCh (n / 10 % 10), digitCh (n % 10)] := by
  by_cases h1 : n < 10
  · rw [render4, decRenderChars_lt10 n h1, Nat.mod_eq_of_lt h1,
      show n / 1000 = 0 from by omega, show n / 100 = 0 from by omega,
      show n / 10 = 0 from by omega]
    show ['0', '0', '0', digitCh n] = [digitCh 0, digitCh (0 % 10), digitCh (0 % 10), digitCh n]
    rfl
  · by_cases h2 : n < 100
    · have hd : decRenderChars n = [digitCh (n / 10), digitCh (n % 10)] := by
        rw [decRenderChars, if_neg (by omega), decDigits_eq, digits10 n (by omega),
          digits10 (n / 10) (by omega), show n / 10 / 10 = 0 from by omega, Nat.digits_zero,
          Nat.mod_eq_of_lt (show n / 10 < 10 by omega)]
        rfl
      rw [render4, hd, show n / 1000 = 0 from by omega, show n / 100 = 0 from by omega,
        show n / 10 % 10 = n / 10 from Nat.mod_eq_of_lt (by omega)]
      show ['0', '0', digitCh (n / 10), digitCh (n % 10)] =
        [digitCh 0, digitCh (0 % 10), digitCh (n / 10), digitCh (n % 10)]
      rfl
    · by_cases h3 : n < 1000
      · have hd : decRenderChars n =
            [digitCh (n / 100), digitCh (n / 10 % 10), digitCh (n % 10)] := by
          rw [decRenderChars, if_neg (by omega), decDigits_eq, digits10 n (by omega),
            digits10 (n / 10) (by omega), digits10 (n / 10 / 10) (by omega),
            show n / 10 / 10 / 10 = 0 from by omega, Nat.digits_zero,
            show n / 10 / 10 = n / 100 from by omega,
            Nat.mod_eq_of_lt (show n / 100 < 10 by omega)]
          rfl
        rw [render4, hd, show n / 1000 = 0 from by omega,
          show n / 100 % 10 = n / 100 from Nat.mod_eq_of_lt (by omega)]
        show ['0', digitCh (n / 100), digitCh (n / 10 % 10), digitCh (n % 10)] =
          [digitCh 0, digitCh (n / 100), digitCh (n / 10 % 10), digitCh (n % 10)]
        rfl
      · have hd : decRenderChars n =
            [digitCh (n / 1000), digitCh (n / 100 % 10), digitCh (n / 10 % 10),
              digitCh (n % 10)] := by
          rw [decRenderChars, if_neg (by omega), decDigits_eq, digits10 n (by omega),
            digits10 (n / 10) (by omega), digits10 (n / 10 / 10) (by omega),
            digits10 (n / 10 / 10 / 10) (by omega),
            show n / 10 / 10 / 10 / 10 = 0 from by omega, Nat.digits_zero,
            show n / 10 / 10 / 10 = n / 1000 from by omega,
            show n / 10 / 10 = n / 100 from by omega,
            Nat.mod_eq_of_lt (show n / 1000 < 10 by omega)]
          rfl
        rw [render4, hd]
        rfl

theorem pDigit2_render (n : Nat) (h : n < 100) (rest : List Char) :
    pDigit2 (render2 n ++ rest) = some (n, rest) := by
  rw [render2_eq n h]
  show pDigit2 (digitCh (n / 10) :: digitCh (n % 10) :: rest) = some (n, rest)
  rw [pDigit2, decDigit_digitCh _ (by omega), decDigit_digitCh _ (by omega)]
  show some (n / 10 * 10 + n % 10, rest) = some (n, rest)
  rw [show n / 10 * 10 + n % 10 = n from by omega]

theorem pDigit4_render (n : Nat) (h : n < 10000) (rest : List Char) :
    pDigit4 (render4 n ++ rest) = some (n, rest) := by
  rw [render4_eq n h]
  show pDigit4 (digitCh (n / 1000) :: digitCh (n / 100 % 10) :: digitCh (n / 10 % 10) ::
    digitCh (n % 10) :: rest) = some (n, rest)
  rw [pDigit4, decDigit_digitCh _ (by omega), decDigit_digitCh _ (by omega),
    decDigit_digitCh _ (by omega), decDigit_digitCh _ (by omega)]
  show some (n / 1000 * 1000 + n / 100 % 10 * 100 + n / 10 % 10 * 10 + n % 10, rest) =
    some (n, rest)
  rw [show n / 1000 * 1000 + n / 100 % 10 * 100 + n / 10 % 10 * 10 + n % 10 = n from by omega]

theorem pChar_cons (c : Char) (rest : List Char) : pChar c (c :: rest) = some rest := by
  rw [pChar, if_pos rfl]

theorem pFrac_ne_dot (c : Char) (cs : List Char) (h : c ≠ '.') :
    pFrac (c :: cs) = some (0, c :: cs) := by
  cases cs with
  | nil => rfl
  | cons c2 cs2 =>
    rw [pFrac, if_neg (fun hand => h hand.1)]

theorem pFrac_renderOffset (off : Int) : pFrac (renderOffset off) = some (0, renderOffset off) := by
  rw [renderOffset]
  by_cases h0 : off = 0
  · rw [if_pos h0]
    rfl
  · rw [if_neg h0]
    by_cases hn : off < 0
    · rw [if_pos hn]
      exact pFrac_ne_dot '-' _ (by decide)
    · rw [if_neg hn]
      exact pFrac_ne_dot '+' _ (by decide)

theorem pDigit2_render_nil (n : Nat) (h : n < 100) : pDigit2 (render2 n) = some (n, []) := by
  rw [← List.append_nil (render2 n)]
  exact pDigit2_render n h []

theorem pOffset_render (off : Int) (h60 : off % 60 = 0) (hlo : -86400 < off)
    (hhi : off < 86400) : pOffset (renderOffset off) = some (off, []) := by
  have hdvd : (60 : Int) ∣ off := Int.dvd_of_emod_eq_zero h60
  have hdvdn : 60 ∣ off.natAbs := Int.ofNat_dvd_right.mp (Int.dvd_natAbs.mpr hdvd)
  have habs : off.natAbs < 86400 := by omega
  by_cases h0 : off = 0
  · subst h0
    rfl
  · rw [renderOffset, if_neg h0]
    by_cases hn : off < 0
    · rw [if_pos hn]
      simp only [pOffset,
        if_pos (show ('-' : Char) = '+' ∨ ('-' : Char) = '-' from Or.inr rfl),
        pDigit2_render (off.natAbs / 60 / 60) (by omega) (':' :: render2 (off.natAbs / 60 % 60)),
        pChar_cons, pDigit2_render_nil (off.natAbs / 60 % 60) (by omega), reduceIte]
      simp only [show (('-' : Char) = 'Z') = False from by simp, if_false,
        show (('-' : Char) = '+') = False from by simp, false_or, if_true,
        Option.some.injEq, Prod.mk.injEq, and_true, if_pos trivial]
      omega
    · rw [if_neg hn]
      simp only [pOffset,
        if_pos (show ('+' : Char) = '+' ∨ ('+' : Char) = '-' from Or.inl rfl),
        pDigit2_render (off.natAbs / 60 / 60) (by omega) (':' :: render2 (off.natAbs / 60 % 60)),
        pChar_cons, pDigit2_render_nil (off.natAbs / 60 % 60) (by omega), reduceIte]
      simp only [show (('+' : Char) = 'Z') = False from by simp, if_false,
        show (('+' : Char) = '-') = False from by simp, true_or, if_true, reduceIte,
        Option.some.injEq, Prod.mk.injEq, and_true, if_pos trivial]
      omega

theorem time_roundtrip (t : GoTime) (h : t.valid) :
    GoTime.fromStr (GoTime.toStr t) = .ok t := by
  obtain ⟨y, mo, d, hr, mi, se, ns, off⟩ := t
  obtain ⟨h1, h2, h3, h4, h5, h6, h7, h8, h9, h10, h11, h12⟩ := h
  simp only at h1 h2 h3 h4 h5 h6 h7 h8 h9 h10 h11 h12
  subst h9
  have hp : parseRFC3339 (render4 y ++
      '-' :: (render2 mo ++
      '-' :: (render2 d ++
      'T' :: (render2 hr ++
      ':' :: (render2 mi ++
      ':' :: (render2 se ++
      renderOffset off)))))) = some ⟨y, mo, d, hr, mi, se, 0, off⟩ := by
    simp only [parseRFC3339,
      pDigit4_render y (by omega),
      pChar_cons,
      pDigit2_render mo (by omega),
      pDigit2_render d (by omega),
      pDigit2_render hr (by omega),
      pDigit2_render mi (by omega),
      pDigit2_render se (by omega),
      pFrac_renderOffset off,
      pOffset_render off h10 h11 h12]
    simp [h1, h2, h3, h4, h5, h6, h7, h8]
  show (match parseRFC3339 (render4 y ++
      '-' :: (render2 mo ++
      '-' :: (render2 d ++
      'T' :: (render2 hr ++
      ':' :: (render2 mi ++
      ':' :: (render2 se ++
      renderOffset off)))))) with
    | none => Except.error ()
    | some t => Except.ok t) = Except.ok (⟨y, mo, d, hr, mi, se, 0, off⟩ : GoTime)
  rw [hp]

/-! ## Lemmas on path resolution and the leaf branch of the write walker -/

theorem pathLoop_missing (tbl : Table) (segs : List String) (path : String)
    (hex : ∃ seg, seg ∈ segs ∧ goHasPfx seg ":" = true ∧ tblGet tbl (goTrimPfx seg ":") = none) :
    ∃ s, pathLoop tbl false segs path = .error (.missingVariable s) := by
  induction segs generalizing path with
  | nil => simp at hex
  | cons p rest ih =>
    obtain ⟨seg, hmem, hpfx, hlook⟩ := hex
    rw [pathLoop]
    by_cases hp : goHasPfx p ":" = true
    · rw [if_pos hp]
      simp only [Bool.and_false, Bool.false_eq_true, if_false]
      cases hl : tblGet tbl (goTrimPfx p ":") with
      | none => exact ⟨p, rfl⟩
      | some v =>
        have hseg : seg ∈ rest := by
          rcases List.mem_cons.mp hmem with rfl | hr
          · rw [hl] at hlook; cases hlook
          · exact hr
        exact ih (goReplace path p v) ⟨seg, hseg, hpfx, hlook⟩
    · rw [if_neg hp]
      have hseg : seg ∈ rest := by
        rcases List.mem_cons.mp hmem with rfl | hr
        · exact absurd hpfx hp
        · exact hr
      exact ih path ⟨seg, hseg, hpfx, hlook⟩

theorem pathLoop_ctx (tbl : Table) (pre post : List String) (path : String)
    (hpre : ∀ seg ∈ pre, goHasPfx seg ":" = true → tblGet tbl (goTrimPfx seg ":") ≠ none) :
    pathLoop tbl true (pre ++ ":@" :: post) path = .error .invalidContext := by
  induction pre generalizing path with
  | nil => rfl
  | cons p rest ih =>
    rw [List.cons_append, pathLoop]
    by_cases hp : goHasPfx p ":" = true
    · rw [if_pos hp]
      by_cases hat : (goTrimPfx p ":" == "@") = true
      · rw [if_pos (by rw [hat]; rfl)]
      · simp only [Bool.and_eq_true, hat, false_and, Bool.false_eq_true, if_false]
        cases hl : tblGet tbl (goTrimPfx p ":") with
        | none => exact absurd hl (hpre p (List.mem_cons_self p rest) hp)
        | some v => exact ih (goReplace path p v) (fun seg hs hpf => hpre seg (List.mem_cons_of_mem p hs) hpf)
    · rw [if_neg hp]
      exact ih path (fun seg hs hpf => hpre seg (List.mem_cons_of_mem p hs) hpf)

theorem fieldsSetOps_leaf (uid : Nat → String) (tag : String) (p : EtcdPtr) (rest : FieldList)
    (tbl : Table) (ins : Bool) (ctr : Nat) (key : String)
    (hkey : pathReplace tag tbl ins = .ok key) :
    fieldsSetOps uid (FieldList.cons (Field.leaf (some tag) p) rest) tbl ins ctr =
      (fieldsSetOps uid rest tbl ins ctr).map (fun r => (leafSetOp key p ++ r.1, r.2)) := by
  have hleaf : fieldSetOps uid (Field.leaf (some tag) p) tbl ins ctr =
      .ok (leafSetOp key p, tbl, ctr) := by
    rw [fieldSetOps, hkey]
    rw [leafSetOp]
    by_cases hdel : p.isDelete = true
    · simp only [hdel, if_true]
    · simp only [Bool.not_eq_true] at hdel
      simp only [hdel, Bool.false_eq_true, if_false]
      by_cases hset : p.isSet = true
      · simp only [hset, if_true]
      · simp only [Bool.not_eq_true] at hset
        simp only [hset, Bool.false_eq_true, if_false]
  rw [fieldsSetOps, hleaf]
  cases hrest : fieldsSetOps uid rest tbl ins ctr with
  | error e => simp only [hrest, Except.map]
  | ok r =>
    obtain ⟨ops2, tbl2, c2⟩ := r
    simp only [hrest, Except.map]

/-! ## The claims -/

/-- C1, counterexample: the claim says a pointer built by the fetch
constructor reports IsSet false, but the source's IsSet only rules out
the delete sentinel and nil, so the fetch sentinel reports IsSet true. -/
theorem c1_counterexample : ¬(GetString.isSet = false) := by decide

/-- C1, amended: the write constructor reports IsSet and nothing else;
the fetch constructor reports IsGet — and also IsSet, since IsSet only
excludes the delete sentinel and nil; the delete constructor reports
IsDelete and nothing else; a null pointer reports IsSet false; and IsSet
is true exactly when the pointer is neither the delete sentinel nor
null. -/
theorem c1_intent_classification :
    (∀ s : String, (SetString s).isSet = true ∧ (SetString s).isGet = false ∧
      (SetString s).isDelete = false) ∧
    (GetString.isGet = true ∧ GetString.isSet = true ∧ GetString.isDelete = false) ∧
    (DeleteString.isDelete = true ∧ DeleteString.isGet = false ∧ DeleteString.isSet = false) ∧
    (EtcdPtr.null.isSet = false) ∧
    (∀ p : EtcdPtr, p.isSet = true ↔ p ≠ DeleteString ∧ p ≠ EtcdPtr.null) := by
  refine ⟨fun s => ⟨rfl, rfl, rfl⟩, ⟨rfl, rfl, rfl⟩, ⟨rfl, rfl, rfl⟩, rfl, fun p => ?_⟩
  cases p <;> simp [EtcdPtr.isSet, DeleteString]

/-- C2, counterexample: on the write path a fetch-intent leaf is not
skipped — because IsSet is true for the fetch sentinel, the walker emits
a Put of the serialized sentinel (the empty string) at the leaf's key. -/
theorem c2_counterexample :
    createStructSetOps demoUid (fieldsOf [Field.leaf (some "k") GetString]) [] false 0 =
      .ok ([Op.put "k" ""], [], 0) ∧ [Op.put "k" ""] ≠ ([] : List Op) :=
  ⟨rfl, by decide⟩

/-- C2, amended: on the write path a null leaf is skipped, a Delete-intent
leaf emits Delete(key), and every other leaf — Write-intent or
Fetch-intent alike, since IsSet holds for the fetch sentinel — emits
Put(key, ToString()); and the leaf contributes exactly these operations
in front of whatever the remaining fields contribute. -/
theorem c2_write_leaf_dispatch :
    (∀ key, leafSetOp key EtcdPtr.null = []) ∧
    (∀ key, leafSetOp key GetString = [Op.put key ""]) ∧
    (∀ key s, leafSetOp key (SetString s) = [Op.put key s]) ∧
    (∀ key, leafSetOp key DeleteString = [Op.del key]) ∧
    (∀ uid tag p rest tbl ins ctr key, pathReplace tag tbl ins = .ok key →
      fieldsSetOps uid (FieldList.cons (Field.leaf (some tag) p) rest) tbl ins ctr =
        (fieldsSetOps uid rest tbl ins ctr).map (fun r => (leafSetOp key p ++ r.1, r.2))) :=
  ⟨fun _ => rfl, fun _ => rfl, fun _ _ => rfl, fun _ => rfl,
   fun uid tag p rest tbl ins ctr key hkey => fieldsSetOps_leaf uid tag p rest tbl ins ctr key hkey⟩

/-- C2, witness: the amended leaf rule applied to a concrete fetch-intent
leaf under an empty table. -/
theorem c2_write_leaf_dispatch_witness :
    fieldsSetOps demoUid (FieldList.cons (Field.leaf (some "k") GetString) FieldList.nil)
      [] false 0 =
      (fieldsSetOps demoUid FieldList.nil [] false 0).map
        (fun r => (leafSetOp "k" GetString ++ r.1, r.2)) :=
  c2_write_leaf_dispatch.2.2.2.2 demoUid "k" GetString FieldList.nil [] false 0 "k" rfl

/-- C3: evaluating `createSliceSetOps` on two Write-intent elements shows
the bug — the loop reassigns its working key, so the second element's key
is nested under the first generated identifier instead of sitting
directly under the collection key. -/
theorem c3_nested_slice_keys :
    createSliceSetOps demoUid [SetString "a", SetString "b"] "k" 0 =
      ([Op.put "k/id0" "a", Op.put "k/id0/id1" "b"], 2) ∧
    demoUid 0 = "id0" ∧ demoUid 1 = "id1" ∧
    "k/id0/id1" ≠ "k" ++ "/" ++ demoUid 1 :=
  ⟨rfl, rfl, rfl, by decide⟩

/-- C4: evaluating the write-path walker on a record whose second field
references the accumulator after a sibling record was processed: the
sibling's key "s" leaks through the shared table, the later leaf resolves
to "s/x", and the table still carries the leaked binding on return; had
the enclosing level's accumulator (the empty string) been restored, the
leaf would have resolved to "/x". -/
theorem c4_accumulator_leak :
    createStructSetOps demoUid
      (fieldsOf [Field.record (some "s") FieldList.nil, Field.leaf (some ":@/x") (SetString "v")])
      [("@", "")] false 0 = .ok ([Op.put "s/x" "v"], [("@", "s")], 0) ∧
    pathReplace ":@/x" [("@", "")] false = .ok "/x" :=
  ⟨rfl, rfl⟩

/-- C5: round-trip of every scalar codec other than the byte blob — time
(on times the RFC 3339 text can carry exactly), identifier, text, signed
and unsigned 64-bit integers in range, and booleans. -/
theorem c5_scalar_roundtrip :
    (∀ t : GoTime, t.valid → GoTime.fromStr (GoTime.toStr t) = .ok t) ∧
    (∀ u : String, EtcdUuid.fromStr (EtcdUuid.toStr u) = .ok u) ∧
    (∀ s : String, EtcdString.fromStr (EtcdString.toStr s) = .ok s) ∧
    (∀ i : Int, -(2 ^ 63) ≤ i → i < 2 ^ 63 → EtcdInt.fromStr (EtcdInt.toStr i) = .ok i) ∧
    (∀ u : Nat, u < 2 ^ 64 → EtcdUint.fromStr (EtcdUint.toStr u) = .ok u) ∧
    (∀ b : Bool, EtcdBool.fromStr (EtcdBool.toStr b) = .ok b) :=
  ⟨time_roundtrip, fun _ => rfl, fun _ => rfl, int_roundtrip, uint_roundtrip, bool_roundtrip⟩

/-- C5, witness: the round trips instantiated at the concrete values of
the repository's own test fixtures. -/
theorem c5_scalar_roundtrip_witness :
    GoTime.fromStr (GoTime.toStr ⟨2018, 8, 30, 12, 0, 0, 0, 0⟩) =
      .ok ⟨2018, 8, 30, 12, 0, 0, 0, 0⟩ ∧
    EtcdUuid.fromStr (EtcdUuid.toStr "uuid-test") = .ok "uuid-test" ∧
    EtcdString.fromStr (EtcdString.toStr "test") = .ok "test" ∧
    EtcdInt.fromStr (EtcdInt.toStr (-42)) = .ok (-42) ∧
    EtcdUint.fromStr (EtcdUint.toStr 42) = .ok 42 ∧
    EtcdBool.fromStr (EtcdBool.toStr true) = .ok true :=
  ⟨c5_scalar_roundtrip.1 _ (by decide), c5_scalar_roundtrip.2.1 _,
   c5_scalar_roundtrip.2.2.1 _, c5_scalar_roundtrip.2.2.2.1 (-42) (by decide) (by decide),
   c5_scalar_roundtrip.2.2.2.2.1 42 (by decide), c5_scalar_roundtrip.2.2.2.2.2 true⟩

/-- C6: the byte blob encodes with the URL-safe base64 alphabet and
decodes with the standard one; the alphabets disagree at position 62, and
the one-byte value 251 encodes to a character the decoder rejects, so the
written form does not parse back. -/
theorem c6_bytes_asymmetric :
    EtcdBytes.toStr [251] = "-w" ∧
    EtcdBytes.fromStr (EtcdBytes.toStr [251]) = .error () ∧
    b64Ch b64UrlAlpha 62 = '-' ∧ b64Ch b64StdAlpha 62 = '+' ∧
    b64UrlAlpha ≠ b64StdAlpha :=
  ⟨rfl, rfl, rfl, rfl, by decide⟩

/-- C7: the concrete resolution example; any template referencing a
variable absent from the table fails with MissingVariable (outside a
collection, where no accumulator check can preempt the lookup); and a
template containing the accumulator segment fails with InvalidContext
inside a collection, provided resolution reaches that segment (every
variable segment before it resolves). -/
theorem c7_path_resolution :
    pathReplace "/a/:x/b" [("x", "5")] false = .ok "/a/5/b" ∧
    (∀ path tbl,
      (∃ seg, seg ∈ goSplit path '/' ∧ goHasPfx seg ":" = true ∧
        tblGet tbl (goTrimPfx seg ":") = none) →
      ∃ s, pathReplace path tbl false = .error (.missingVariable s)) ∧
    (∀ path tbl pre post, goSplit path '/' = pre ++ ":@" :: post →
      (∀ seg ∈ pre, goHasPfx seg ":" = true → tblGet tbl (goTrimPfx seg ":") ≠ none) →
      pathReplace path tbl true = .error .invalidContext) :=
  ⟨rfl,
   fun path tbl hex => pathLoop_missing tbl (goSplit path '/') path hex,
   fun path tbl pre post hsplit hpre => by
     rw [pathReplace, hsplit]
     exact pathLoop_ctx tbl pre post path hpre⟩

/-- C7, witness: a missing variable and an in-collection accumulator
reference, both through the theorem. -/
theorem c7_path_resolution_witness :
    (∃ s, pathReplace "/q/:zz" [("x", "5")] false = .error (.missingVariable s)) ∧
    pathReplace "/a/:@/b" [("x", "5")] true = .error .invalidContext :=
  ⟨c7_path_resolution.2.1 "/q/:zz" [("x", "5")] ⟨":zz", by decide, rfl, rfl⟩,
   c7_path_resolution.2.2 "/a/:@/b" [("x", "5")] ["", "a"] ["b"] (by decide) (by decide)⟩

/-- C8: when the number of responses differs from the number of
callbacks, the response phase of Get reports ResponseCountMismatch and
returns the record state untouched — the count check runs before any
callback. -/
theorem c8_count_mismatch {σ ρ : Type} (cbs : List (ρ → σ → Except Unit σ))
    (resps : List ρ) (s : σ) (h : resps.length ≠ cbs.length) :
    getRespond cbs resps s = (s, some GetErr.responseCountMismatch) := by
  rw [getRespond, if_neg h]

/-- C8, witness: one response against zero callbacks. -/
theorem c8_count_mismatch_witness :
    getRespond ([] : List (Nat → Nat → Except Unit Nat)) [0] 7 =
      (7, some GetErr.responseCountMismatch) :=
  c8_count_mismatch [] [0] 7 (by decide)

/-- C9: a collection holding exactly one Delete-intent element produces
exactly one operation, the prefix delete of the collection key plus
separator, and nothing else. -/
theorem c9_single_delete_clears (uid : Nat → String) (ctr : Nat) (key : String)
    (p : EtcdPtr) (h : p.isDelete = true) :
    createSliceSetOps uid [p] key ctr = ([Op.delAll (key ++ "/")], ctr) := by
  cases p with
  | deleteSent => rfl
  | null => simp [EtcdPtr.isDelete] at h
  | getSent => simp [EtcdPtr.isDelete] at h
  | val s => simp [EtcdPtr.isDelete] at h

/-- C9, witness: the delete-sentinel singleton at key "k". -/
theorem c9_single_delete_clears_witness :
    createSliceSetOps demoUid [DeleteString] "k" 0 = ([Op.delAll ("k" ++ "/")], 0) :=
  c9_single_delete_clears demoUid 0 "k" DeleteString rfl

/-- C10: both Get and Set run the unguarded accumulator assignment into
the caller's map right after validating the record pointer, so a nil map
panics even for a valid struct pointer, while a non-nil map proceeds with
the accumulator entry set to the empty string. -/
theorem c10_nil_table_panics :
    (∀ fs : FieldList, storeGetEntry (GoArg.ptrToStruct fs) GoMap.nilMap = GoCall.panicked) ∧
    (∀ fs : FieldList, storeSetEntry (GoArg.ptrToStruct fs) GoMap.nilMap = GoCall.panicked) ∧
    (∀ fs entries, storeGetEntry (GoArg.ptrToStruct fs) (GoMap.mk entries) =
      GoCall.proceeds fs (tblSet entries "@" "")) ∧
    (∀ fs entries, storeSetEntry (GoArg.ptrToStruct fs) (GoMap.mk entries) =
      GoCall.proceeds fs (tblSet entries "@" "")) :=
  ⟨fun _ => rfl, fun _ => rfl, fun _ _ => rfl, fun _ _ => rfl⟩

end EtcdClient
